import Mathlib

/-
Shallow embedding of rust-nomvec (src/lib.rs): a growable vector `NomVec`
built on a raw buffer `RawVec` with an explicit allocator capability, plus
the raw double-ended iterator `RawValIter` used by `IntoIter` and `Drain`.

Modelling conventions:
* `usize`/`isize` arithmetic is done in `Nat`, with the 64-bit platform
  constants `usizeMax` and `isizeMax` made explicit where the source
  mentions `usize::MAX` / `isize::MAX`.
* The element type parameter `T` of the Rust code is split into a Lean type
  parameter `α` (the values) and two numbers `esize`/`ealign`
  (`mem::size_of::<T>()` and `mem::align_of::<T>()`), so that zero-sized
  types (`esize = 0`) can be discussed.
* The allocator capability (`A: Allocator`) is modelled by `AllocModel`,
  a pair of response functions returning `some address` on success and
  `none` when the allocator declines the request.  The source stores the
  allocator inside `RawVec`; the model passes it as a parameter, which is
  equivalent because the source never replaces it.
* Buffer contents are modelled slot-by-slot as `mem : Nat → α`
  (slot `i` corresponds to the address `ptr + i * esize`); a reallocation
  preserves contents, which matches `Allocator::grow` copying the block.
* Fallible outcomes use `Res`: `.ok` for normal returns, `.err` for a
  returned `AllocationError` value, and `.fatal` for a Rust panic or abort
  (a failed `unwrap()`, a failed `assert!`, or an integer division by
  zero).  `RawValIter.size_hint` returns `Option Nat`, with `none`
  standing for the division-by-zero panic.
* `RawValIter` keeps the source's raw addresses `start`/`end` as naturals
  (the field `end` is renamed `stop` because `end` is a Lean keyword).
  Reading an address is done through an explicit read function
  `rd : Nat → α`; for a vector this is `NomVec.readAddr`.
-/

namespace NomVecModel

/-- Value of `usize::MAX` on the 64-bit platform the crate targets. -/
def usizeMax : Nat := 2 ^ 64 - 1

/-- Value of `isize::MAX` (the largest representable allocation size). -/
def isizeMax : Nat := 2 ^ 63 - 1

/-- The error taxonomy of the source (`enum AllocationError`). -/
inductive AllocationError where
  | CapacityOverflow
  | AllocationTooLarge
  | AllocationFailed

/-- Outcome of a fallible operation: a normal return, a returned
`AllocationError` value, or a Rust panic/abort (`.fatal`). -/
inductive Res (σ : Type) where
  | ok (s : σ)
  | err (e : AllocationError)
  | fatal

/-- Extract the `.ok` payload, with a default for the other outcomes. -/
def Res.getD {σ : Type} (r : Res σ) (d : σ) : σ :=
  match r with
  | .ok s => s
  | _ => d

/-- Whether the outcome is a returned (typed) error value. -/
def Res.isErr {σ : Type} : Res σ → Bool
  | .err _ => true
  | _ => false

/-- Whether the outcome is specifically `Err(AllocationError::AllocationTooLarge)`. -/
def Res.isAllocTooLarge {σ : Type} : Res σ → Bool
  | .err .AllocationTooLarge => true
  | _ => false

/-- A size-and-alignment descriptor (`std::alloc::Layout`). -/
structure Layout where
  size : Nat
  align : Nat

/-- Model of `Layout::array::<T>(n)`: the array layout of `n` elements of
size `esize` and alignment `ealign`.  The standard library returns an
error (here `none`) when the total size exceeds
`isize::MAX - (align - 1)`; note `esize` is always a multiple of
`ealign` in Rust, so no rounding is needed. -/
def layoutArray (esize ealign n : Nat) : Option Layout :=
  if esize * n ≤ isizeMax - (ealign - 1) then some ⟨esize * n, ealign⟩ else none

/-- The allocator capability: `allocate(layout)` and
`grow(old_ptr, old_layout, new_layout)`, each returning `some address` on
success and `none` when the request is declined. -/
structure AllocModel where
  allocate : Layout → Option Nat
  growAlloc : Nat → Layout → Layout → Option Nat

/-- The buffer component `RawVec<T, A>`: a base pointer and a capacity.
(The allocator field is passed to `grow` as a parameter instead.) -/
structure RawVec where
  ptr : Nat
  cap : Nat

/-- `RawVec::new`: capacity `usize::MAX` for zero-sized element types,
else 0; the pointer starts as `NonNull::dangling()`, whose address is the
alignment of `T`. -/
def RawVec.new (esize ealign : Nat) : RawVec :=
  { ptr := ealign, cap := if esize = 0 then usizeMax else 0 }

/-- `RawVec::grow`, line by line: error `CapacityOverflow` for zero-sized
element types; `new_cap` is 4 on first growth and `cap + cap/2` after,
clamped by `.min(isize::MAX as usize)`; `Layout::array(new_cap).unwrap()`
panics (`.fatal`) when the layout is invalid; then the dead-looking
`AllocationTooLarge` check; then `allocate` or `grow` on the allocator,
whose refusal becomes `AllocationFailed`.  On `.err` the buffer is left
exactly as it was (no partial commit), which the model expresses by not
returning any state in that case. -/
def RawVec.grow (esize ealign : Nat) (A : AllocModel) (b : RawVec) : Res RawVec :=
  if esize = 0 then
    .err .CapacityOverflow
  else
    let newCap := if b.cap = 0 then 4 else b.cap + b.cap / 2
    let newCap := min newCap isizeMax
    match layoutArray esize ealign newCap with
    | none => .fatal
    | some newLayout =>
      if isizeMax < newLayout.size then
        .err .AllocationTooLarge
      else
        if b.cap = 0 then
          match A.allocate newLayout with
          | some p => .ok ⟨p, newCap⟩
          | none => .err .AllocationFailed
        else
          match layoutArray esize ealign b.cap with
          | none => .fatal
          | some oldLayout =>
            match A.growAlloc b.ptr oldLayout newLayout with
            | some p => .ok ⟨p, newCap⟩
            | none => .err .AllocationFailed

/-- The vector `NomVec<T, A>`: a buffer, a length, and the slot-indexed
contents of the backing block.  Slots `[0, len)` are the live elements. -/
structure NomVec (α : Type) where
  buf : RawVec
  len : Nat
  mem : Nat → α

/-- `NomVec::new`: an empty vector over a fresh buffer.  `m₀` models the
arbitrary contents of uninitialized memory. -/
def NomVec.new {α : Type} (esize ealign : Nat) (m₀ : Nat → α) : NomVec α :=
  { buf := RawVec.new esize ealign, len := 0, mem := m₀ }

/-- The `Deref` slice view `[0, len)` of the vector. -/
def NomVec.asSlice {α : Type} (s : NomVec α) : List α :=
  (List.range s.len).map s.mem

/-- The write-then-increment tail of `push`:
`ptr::write(self.ptr().add(self.len), elem); self.len += 1;`. -/
def NomVec.pushWrite {α : Type} (elem : α) (s : NomVec α) : NomVec α :=
  { s with mem := fun k => if k = s.len then elem else s.mem k, len := s.len + 1 }

/-- `NomVec::push`: grow when full (`self.buf.grow().unwrap()` — a failed
growth is a panic, not a returned error), then write the element into slot
`len` and increment `len`. -/
def NomVec.push {α : Type} (esize ealign : Nat) (A : AllocModel) (elem : α)
    (s : NomVec α) : Res (NomVec α) :=
  if s.len = s.buf.cap then
    match RawVec.grow esize ealign A s.buf with
    | .ok b => .ok (NomVec.pushWrite elem { s with buf := b })
    | _ => .fatal
  else
    .ok (NomVec.pushWrite elem s)

/-- `NomVec::pop`: `None` when empty, else decrement `len` and read the
now-excluded slot out. -/
def NomVec.pop {α : Type} (s : NomVec α) : Option α × NomVec α :=
  if s.len = 0 then
    (none, s)
  else
    (some (s.mem (s.len - 1)), { s with len := s.len - 1 })

/-- The unsafe block of `insert`: when `index < len`, `ptr::copy` moves
slots `[index, len)` one slot right (overlap-safe, so the destination
range `[index+1, index+1+(len-index))` reads the original contents); then
the element is written at `index` and `len` is incremented. -/
def NomVec.insertWrite {α : Type} (index : Nat) (elem : α) (s : NomVec α) : NomVec α :=
  let shifted : Nat → α := fun k =>
    if index < s.len ∧ index + 1 ≤ k ∧ k < index + 1 + (s.len - index) then
      s.mem (k - 1)
    else
      s.mem k
  { s with mem := fun k => if k = index then elem else shifted k, len := s.len + 1 }

/-- `NomVec::insert`: `assert!(index <= self.len)` (violation panics),
grow when full (again via `.unwrap()`), then shift right and write. -/
def NomVec.insert {α : Type} (esize ealign : Nat) (A : AllocModel) (index : Nat)
    (elem : α) (s : NomVec α) : Res (NomVec α) :=
  if index ≤ s.len then
    if s.buf.cap = s.len then
      match RawVec.grow esize ealign A s.buf with
      | .ok b => .ok (NomVec.insertWrite index elem { s with buf := b })
      | _ => .fatal
    else
      .ok (NomVec.insertWrite index elem s)
  else
    .fatal

/-- `NomVec::remove`: `assert!(index < self.len)` (violation panics),
decrement `len`, read the element at `index` out, and `ptr::copy` slots
`[index+1, old_len)` one slot left (destination range
`[index, index + (new_len - index))`). -/
def NomVec.remove {α : Type} (index : Nat) (s : NomVec α) : Res (α × NomVec α) :=
  if index < s.len then
    let newLen := s.len - 1
    .ok (s.mem index,
      { s with len := newLen,
               mem := fun k =>
                 if index ≤ k ∧ k < index + (newLen - index) then
                   s.mem (k + 1)
                 else
                   s.mem k })
  else
    .fatal

/-- The cursor `RawValIter<T>`: the source's raw `start`/`end` addresses
(`end` is renamed `stop`). -/
structure RawValIter where
  start : Nat
  stop : Nat

/-- `RawValIter::new` over the slice `[ptr, ptr + len)`: for zero-sized
elements `end` encodes a count (`start + len`); for an empty slice `end`
is `start` (no offsetting of an unallocated pointer); otherwise
`start.add(len)`, i.e. `ptr + len * esize` bytes. -/
def RawValIter.new (esize ptr len : Nat) : RawValIter :=
  { start := ptr,
    stop :=
      if esize = 0 then ptr + len
      else if len = 0 then ptr
      else ptr + len * esize }

/-- `Iterator::next` for `RawValIter`: done when `start == end`; else read
the value at `start`, then advance `start` — by 1 for a zero-sized element
(opaque count), else by one element (`esize` bytes, `offset(1)`). -/
def RawValIter.next {α : Type} (esize : Nat) (rd : Nat → α) (it : RawValIter) :
    Option (α × RawValIter) :=
  if it.start = it.stop then
    none
  else
    some (rd it.start,
      { start := if esize = 0 then it.start + 1 else it.start + esize,
        stop := it.stop })

/-- `DoubleEndedIterator::next_back` for `RawValIter`: done when
`start == end`; else `self.end = self.end.offset(-1)` — which moves the
address by `esize` bytes, i.e. by 0 bytes for a zero-sized element — then
read the slot at the new `end`. -/
def RawValIter.next_back {α : Type} (esize : Nat) (rd : Nat → α) (it : RawValIter) :
    Option (α × RawValIter) :=
  if it.start = it.stop then
    none
  else
    some (rd (it.stop - esize), { start := it.start, stop := it.stop - esize })

/-- `RawValIter::size_hint` computes
`(end as usize - start as usize) / mem::size_of::<T>()`; for a zero-sized
element type this divides by zero, which panics in Rust — modelled as
`none`. -/
def RawValIter.size_hint (esize : Nat) (it : RawValIter) : Option Nat :=
  if esize = 0 then none else some ((it.stop - it.start) / esize)

/-- Reading an address of the backing block back to a slot value: address
`ptr + k * esize` holds slot `k`.  Only meaningful for `esize > 0`; for
zero-sized elements `ptr::read` conjures the value without touching
memory, so iteration theorems about them are stated via counts. -/
def NomVec.readAddr {α : Type} (esize : Nat) (s : NomVec α) : Nat → α :=
  fun a => s.mem ((a - s.buf.ptr) / esize)

/-- `NomVec::drain`: build a `RawValIter` over the currently-live slice,
then immediately set `len` to 0.  The returned pair is (iterator, the
already-truncated vector): the truncation happens before any element is
yielded. -/
def NomVec.drain {α : Type} (esize : Nat) (s : NomVec α) : RawValIter × NomVec α :=
  (RawValIter.new esize s.buf.ptr s.len, { s with len := 0 })

/-- Repeatedly call `next`, collecting the yielded values in order.  The
fuel bounds the number of steps so that the function is total even on the
iterator states where the source would loop. -/
def consumeFwd {α : Type} (esize : Nat) (rd : Nat → α) : Nat → RawValIter → List α
  | 0, _ => []
  | fuel + 1, it =>
    match RawValIter.next esize rd it with
    | none => []
    | some (v, it') => v :: consumeFwd esize rd fuel it'

/-- Repeatedly call `next_back`, collecting the yielded values in yield
order (so the first list entry is the last element of the run). -/
def consumeBack {α : Type} (esize : Nat) (rd : Nat → α) : Nat → RawValIter → List α
  | 0, _ => []
  | fuel + 1, it =>
    match RawValIter.next_back esize rd it with
    | none => []
    | some (v, it') => v :: consumeBack esize rd fuel it'

/-- A sequence of `push` calls, stopping at the first panic or error. -/
def pushVals {α : Type} (esize ealign : Nat) (A : AllocModel) :
    List α → NomVec α → Res (NomVec α)
  | [], s => .ok s
  | v :: vs, s =>
    match NomVec.push esize ealign A v s with
    | .ok s' => pushVals esize ealign A vs s'
    | .err e => .err e
    | .fatal => .fatal

/-- An allocator that satisfies every request (always returns address 1). -/
def perfectA : AllocModel :=
  { allocate := fun _ => some 1, growAlloc := fun _ _ _ => some 1 }

/-- An allocator that declines every request. -/
def failA : AllocModel :=
  { allocate := fun _ => none, growAlloc := fun _ _ _ => none }

/-- A concrete 3-element vector of `Nat` (slot `k` holds `k + 10`). -/
def demo3 : NomVec Nat :=
  { buf := ⟨1, 4⟩, len := 3, mem := fun k => k + 10 }

/-- A concrete 1-element vector of a zero-sized element type. -/
def vZ1 : NomVec Unit :=
  { buf := ⟨1, usizeMax⟩, len := 1, mem := fun _ => () }

/-- A vector of one-byte elements whose length and capacity have reached
`isize::MAX` (reachable by `isize::MAX` pushes under an allocator that
keeps succeeding, since each successful growth clamps to `isize::MAX`). -/
def badVec : NomVec Unit :=
  { buf := ⟨1, isizeMax⟩, len := isizeMax, mem := fun _ => () }

/-- The vector obtained by pushing 10, 20, 30 onto a fresh vector. -/
def pushedT : NomVec Nat :=
  (pushVals 1 1 perfectA [10, 20, 30] (NomVec.new 1 1 (fun _ => 0))).getD
    (NomVec.new 1 1 (fun _ => 0))

/-- The buffer produced by the first growth of a fresh one-byte buffer. -/
def grownB : RawVec := (RawVec.grow 1 1 perfectA ⟨1, 0⟩).getD ⟨0, 0⟩

/-- The vector obtained by inserting 99 at index 1 of `demo3`. -/
def insDemo : NomVec Nat := (NomVec.insert 1 1 perfectA 1 99 demo3).getD demo3

/-- The result of removing index 1 from `insDemo` (the value and the
remaining vector). -/
def remDemo : Nat × NomVec Nat := (NomVec.remove 1 insDemo).getD (0, demo3)

lemma NomVec.pushWrite_asSlice {α : Type} (v : α) (s : NomVec α) :
    (NomVec.pushWrite v s).asSlice = s.asSlice ++ [v] := by
  simp only [NomVec.pushWrite, NomVec.asSlice, List.range_succ, List.map_append,
    List.map_cons, List.map_nil]
  congr 1
  apply List.map_congr_left
  intro k hk
  rw [List.mem_range] at hk
  simp [Nat.ne_of_lt hk]

lemma NomVec.push_ok {α : Type} {esize ealign : Nat} {A : AllocModel} {v : α}
    {s t : NomVec α} (h : NomVec.push esize ealign A v s = .ok t) :
    t.len = s.len + 1 ∧ t.asSlice = s.asSlice ++ [v] := by
  unfold NomVec.push at h
  split at h
  · cases hg : RawVec.grow esize ealign A s.buf with
    | ok b =>
      rw [hg] at h
      cases h
      exact ⟨rfl, NomVec.pushWrite_asSlice v _⟩
    | err e => rw [hg] at h; cases h
    | fatal => rw [hg] at h; cases h
  · cases h
    exact ⟨rfl, NomVec.pushWrite_asSlice v s⟩

lemma pushVals_ok {α : Type} {esize ealign : Nat} {A : AllocModel} :
    ∀ (vs : List α) {s t : NomVec α}, pushVals esize ealign A vs s = .ok t →
      t.len = s.len + vs.length ∧ t.asSlice = s.asSlice ++ vs := by
  intro vs
  induction vs with
  | nil =>
    intro s t h
    unfold pushVals at h
    cases h
    simp
  | cons v vs ih =>
    intro s t h
    unfold pushVals at h
    cases hp : NomVec.push esize ealign A v s with
    | ok s' =>
      rw [hp] at h
      obtain ⟨h1, h2⟩ := ih h
      obtain ⟨p1, p2⟩ := NomVec.push_ok hp
      constructor
      · rw [h1, p1]; simp only [List.length_cons]; omega
      · rw [h2, p2]; simp
    | err e => rw [hp] at h; cases h
    | fatal => rw [hp] at h; cases h

/-- C1: for every sequence of N pushes onto a newly created vector that
completes without a panic, the length afterward is N and the slice view at
index i is the i-th pushed value (stated as: the slice view equals the
pushed list). -/
theorem claim1_push_sequence {α : Type} (esize ealign : Nat) (A : AllocModel)
    (vs : List α) (m₀ : Nat → α) (t : NomVec α)
    (h : pushVals esize ealign A vs (NomVec.new esize ealign m₀) = .ok t) :
    t.len = vs.length ∧ t.asSlice = vs := by
  obtain ⟨h1, h2⟩ := pushVals_ok vs h
  constructor
  · simpa [NomVec.new] using h1
  · simpa [NomVec.new, NomVec.asSlice] using h2

/-- Witness for C1: pushing 10, 20, 30 onto a fresh vector yields length 3
and slice view [10, 20, 30]. -/
theorem claim1_push_sequence_witness :
    pushedT.len = 3 ∧ pushedT.asSlice = [10, 20, 30] := by
  have h := claim1_push_sequence 1 1 perfectA [10, 20, 30] (fun _ => 0) pushedT rfl
  exact ⟨h.1, h.2⟩

lemma layoutArray_le {esize ealign n : Nat} {l : Layout}
    (h : layoutArray esize ealign n = some l) : esize * n ≤ isizeMax := by
  unfold layoutArray at h
  split at h
  · rename_i hg
    exact le_trans hg (Nat.sub_le _ _)
  · cases h

lemma layoutArray_size_le {esize ealign n : Nat} {l : Layout}
    (h : layoutArray esize ealign n = some l) : l.size ≤ isizeMax := by
  unfold layoutArray at h
  split at h
  · rename_i hg
    cases h
    exact le_trans hg (Nat.sub_le _ _)
  · cases h

lemma grow_ok_cap {esize ealign : Nat} {A : AllocModel} {b b' : RawVec}
    (h : RawVec.grow esize ealign A b = .ok b') :
    b'.cap = min (if b.cap = 0 then 4 else b.cap + b.cap / 2) isizeMax ∧
    esize * b'.cap ≤ isizeMax := by
  simp only [RawVec.grow] at h
  split at h
  · cases h
  · split at h
    · cases h
    · rename_i nl hnl
      split at h
      · cases h
      · split at h
        · rename_i hb0
          split at h
          · cases h
            refine ⟨by simp [hb0], ?_⟩
            have hle := layoutArray_le hnl
            simpa [hb0] using hle
          · cases h
        · rename_i hb0
          split at h
          · cases h
          · split at h
            · cases h
              refine ⟨by simp [hb0], ?_⟩
              have hle := layoutArray_le hnl
              simpa [hb0] using hle
            · cases h

/-- C2: a successful growth sets capacity to 4 on the first growth and to
floor(old * 1.5) clamped to `isize::MAX` on later growths; the resulting
byte size stays within the representable limit, the new capacity never
exceeds `isize::MAX`, and (for buffers whose capacity is at most
`isize::MAX`, which is every non-zero-sized buffer) capacity never
decreases.  Capacity is untouched on every failure path, and no other
operation changes it, so it is monotone across the buffer's lifetime. -/
theorem claim2_growth_policy (esize ealign : Nat) (A : AllocModel) (b b' : RawVec)
    (h : RawVec.grow esize ealign A b = .ok b') :
    b'.cap = (if b.cap = 0 then 4 else min (3 * b.cap / 2) isizeMax) ∧
    esize * b'.cap ≤ isizeMax ∧
    b'.cap ≤ isizeMax ∧
    (b.cap ≤ isizeMax → b.cap ≤ b'.cap) := by
  obtain ⟨hc, hsz⟩ := grow_ok_cap h
  refine ⟨?_, hsz, ?_, ?_⟩
  · rw [hc]
    by_cases h0 : b.cap = 0
    · rw [if_pos h0, if_pos h0]
      exact Nat.min_eq_left (by decide)
    · rw [if_neg h0, if_neg h0]
      have h32 : b.cap + b.cap / 2 = 3 * b.cap / 2 := by omega
      rw [h32]
  · rw [hc]; exact Nat.min_le_right _ _
  · intro hbM
    rw [hc]
    by_cases h0 : b.cap = 0
    · simp [h0]
    · rw [if_neg h0]
      exact Nat.le_min.mpr ⟨Nat.le_add_right _ _, hbM⟩

/-- Witness for C2: the first growth of a fresh one-byte buffer yields
capacity 4, within all the stated bounds. -/
theorem claim2_growth_policy_witness :
    grownB.cap = 4 ∧ 1 * grownB.cap ≤ isizeMax ∧ grownB.cap ≤ isizeMax ∧
    (0 : Nat) ≤ grownB.cap := by
  have h := claim2_growth_policy 1 1 perfectA ⟨1, 0⟩ grownB rfl
  exact ⟨h.1, h.2.1, h.2.2.1, h.2.2.2 (by decide)⟩

/-- C3 (code bug): at `cap = isize::MAX` (reachable for one-byte elements
under an allocator that keeps succeeding, because every successful growth
clamps the capacity to `isize::MAX`), `grow` succeeds without increasing
the capacity, so `push` on the full vector `badVec` produces
`len = isize::MAX + 1 > cap` — the invariant `len <= cap` is not
preserved (and the element write lands one past the end of the block). -/
theorem claim3_invariant_overflow :
    RawVec.grow 1 1 perfectA ⟨1, isizeMax⟩ = .ok ⟨1, isizeMax⟩ ∧
    ((NomVec.push 1 1 perfectA () badVec).getD badVec).len = isizeMax + 1 ∧
    ((NomVec.push 1 1 perfectA () badVec).getD badVec).buf.cap
      < ((NomVec.push 1 1 perfectA () badVec).getD badVec).len := by
  refine ⟨rfl, rfl, by decide⟩

/-- C5 (code bug): when the computed byte size exceeds `isize::MAX`,
`grow` panics inside `Layout::array(new_cap).unwrap()` instead of
returning `AllocationTooLarge` — shown at element size 2, alignment 2,
capacity 2^62 — and the `AllocationTooLarge` branch is dead code: no
input whatsoever makes `grow` return that error, because a layout that
survives the unwrap always has size at most `isize::MAX`. -/
theorem claim5_alloc_too_large_dead :
    RawVec.grow 2 2 perfectA ⟨2, 2 ^ 62⟩ = .fatal ∧
    ∀ (esize ealign : Nat) (A : AllocModel) (b : RawVec),
      (RawVec.grow esize ealign A b).isAllocTooLarge = false := by
  refine ⟨rfl, ?_⟩
  intro esize ealign A b
  simp only [RawVec.grow]
  split
  · rfl
  · split
    · rfl
    · rename_i nl hnl
      split
      · rename_i hlt
        exact absurd hlt (Nat.not_lt.mpr (layoutArray_size_le hnl))
      · split
        · split
          · rfl
          · rfl
        · split
          · rfl
          · split
            · rfl
            · rfl

/-- C4 counterexample: on a fresh one-byte vector under an allocator that
declines the request, `grow` fails with the typed error
`AllocationFailed`, but `push` does not surface any error value to its
caller: the `unwrap()` turns the failure into a panic. -/
theorem claim4_growth_failure_cex :
    RawVec.grow 1 1 failA (NomVec.new 1 1 (fun _ => (0 : Nat))).buf
      = .err .AllocationFailed ∧
    NomVec.push 1 1 failA (7 : Nat) (NomVec.new 1 1 (fun _ => 0)) = .fatal ∧
    (NomVec.push 1 1 failA (7 : Nat) (NomVec.new 1 1 (fun _ => 0))).isErr = false :=
  ⟨rfl, rfl, rfl⟩

/-- C4 as amended: growth failure is a typed error value only at the
`RawVec::grow` boundary; `push` and `insert` call `.unwrap()` on it, so a
growth failure during either is a panic — never a typed error returned to
the caller, and never a silent truncation (no vector state is produced at
all). -/
theorem claim4_growth_failure_amended {α : Type} (esize ealign : Nat)
    (A : AllocModel) (v : α) (s : NomVec α) (e : AllocationError) (i : Nat)
    (hfull : s.len = s.buf.cap)
    (hgrow : RawVec.grow esize ealign A s.buf = .err e)
    (hi : i ≤ s.len) :
    NomVec.push esize ealign A v s = .fatal ∧
    NomVec.insert esize ealign A i v s = .fatal := by
  constructor
  · unfold NomVec.push
    rw [if_pos hfull, hgrow]
  · unfold NomVec.insert
    rw [if_pos hi, if_pos hfull.symm, hgrow]

/-- Witness for the amended C4: a fresh vector under the declining
allocator is full (0 = 0), growth fails, and both push and insert panic. -/
theorem claim4_growth_failure_amended_witness :
    NomVec.push 1 1 failA (5 : Nat) (NomVec.new 1 1 (fun _ => 0)) = .fatal ∧
    NomVec.insert 1 1 failA 0 (5 : Nat) (NomVec.new 1 1 (fun _ => 0)) = .fatal :=
  claim4_growth_failure_amended 1 1 failA 5 (NomVec.new 1 1 (fun _ => 0))
    .AllocationFailed 0 rfl rfl (by decide)

lemma NomVec.insert_ok {α : Type} {esize ealign : Nat} {A : AllocModel} {i : Nat}
    {v : α} {s t : NomVec α} (h : NomVec.insert esize ealign A i v s = .ok t) :
    t.len = s.len + 1 ∧
    ∀ k, t.mem k =
      if k = i then v
      else if i < s.len ∧ i + 1 ≤ k ∧ k < i + 1 + (s.len - i) then s.mem (k - 1)
      else s.mem k := by
  unfold NomVec.insert at h
  split at h
  · split at h
    · cases hg : RawVec.grow esize ealign A s.buf with
      | ok b => rw [hg] at h; cases h; exact ⟨rfl, fun k => rfl⟩
      | err e => rw [hg] at h; cases h
      | fatal => rw [hg] at h; cases h
    · cases h
      exact ⟨rfl, fun k => rfl⟩
  · cases h

/-- C7: for every vector, index i with i <= len, and value v, when
`insert(i, v)` succeeds, `remove(i)` returns exactly v and leaves the
vector with its prior length and its prior slice view (so all other
elements keep their relative order). -/
theorem claim7_insert_remove {α : Type} (esize ealign : Nat) (A : AllocModel)
    (i : Nat) (v : α) (s s₁ : NomVec α) (w : α) (s₂ : NomVec α)
    (hi : i ≤ s.len)
    (h₁ : NomVec.insert esize ealign A i v s = .ok s₁)
    (h₂ : NomVec.remove i s₁ = .ok (w, s₂)) :
    w = v ∧ s₂.len = s.len ∧ s₂.asSlice = s.asSlice := by
  obtain ⟨hlen1, hmem1⟩ := NomVec.insert_ok h₁
  simp only [NomVec.remove] at h₂
  split at h₂
  · rename_i hlt
    cases h₂
    refine ⟨?_, ?_, ?_⟩
    · rw [hmem1 i]; simp
    · simp only []
      omega
    · unfold NomVec.asSlice
      simp only []
      rw [show s₁.len - 1 = s.len from by omega]
      apply List.map_congr_left
      intro k hk
      rw [List.mem_range] at hk
      by_cases hik : i ≤ k
      · rw [if_pos ⟨hik, by omega⟩, hmem1 (k + 1)]
        rw [if_neg (by omega), if_pos ⟨by omega, by omega, by omega⟩]
        simp
      · rw [if_neg (fun hc => hik hc.1), hmem1 k]
        rw [if_neg (by omega), if_neg (by intro hc; omega)]
  · cases h₂

/-- Witness for C7: inserting 99 at index 1 of `demo3` and removing index
1 gives back 99 and restores the length and slice view of `demo3`. -/
theorem claim7_insert_remove_witness :
    remDemo.1 = 99 ∧ remDemo.2.len = demo3.len ∧ remDemo.2.asSlice = demo3.asSlice :=
  claim7_insert_remove 1 1 perfectA 1 99 demo3 insDemo remDemo.1 remDemo.2
    (by decide) rfl rfl

/-- C10: `remove` (at a valid index), `drain`, and `pop` leave the
buffer — its base pointer and its capacity — unchanged; only `push` and
`insert` go through `grow`, which is the only operation that replaces the
buffer. -/
theorem claim10_frame {α : Type} (esize i : Nat) (s : NomVec α) (w : α)
    (s₂ : NomVec α) (h : NomVec.remove i s = .ok (w, s₂)) :
    s₂.buf = s.buf ∧
    (NomVec.drain esize s).2.buf = s.buf ∧
    (NomVec.pop s).2.buf = s.buf := by
  refine ⟨?_, rfl, ?_⟩
  · simp only [NomVec.remove] at h
    split at h
    · cases h; rfl
    · cases h
  · unfold NomVec.pop
    split
    · rfl
    · rfl

/-- Witness for C10: removing index 0 of `demo3`, draining `demo3`, and
popping `demo3` all preserve its buffer. -/
theorem claim10_frame_witness :
    ((NomVec.remove 0 demo3).getD (0, demo3)).2.buf = demo3.buf ∧
    (NomVec.drain 1 demo3).2.buf = demo3.buf ∧
    (NomVec.pop demo3).2.buf = demo3.buf :=
  claim10_frame 1 0 demo3 ((NomVec.remove 0 demo3).getD (0, demo3)).1
    ((NomVec.remove 0 demo3).getD (0, demo3)).2 rfl

lemma consumeFwd_done {α : Type} (esize : Nat) (rd : Nat → α) (fuel a : Nat) :
    consumeFwd esize rd fuel ⟨a, a⟩ = [] := by
  cases fuel with
  | zero => rfl
  | succ f => simp [consumeFwd, RawValIter.next]

lemma consumeBack_done {α : Type} (esize : Nat) (rd : Nat → α) (fuel a : Nat) :
    consumeBack esize rd fuel ⟨a, a⟩ = [] := by
  cases fuel with
  | zero => rfl
  | succ f => simp [consumeBack, RawValIter.next_back]

lemma map_range_shift {α : Type} (rd : Nat → α) (a esize n : Nat) :
    (List.range (n + 1)).map (fun k => rd (a + k * esize))
      = rd a :: (List.range n).map (fun k => rd (a + esize + k * esize)) := by
  rw [List.range_succ_eq_map]
  simp only [List.map_cons, List.map_map, Nat.zero_mul, Nat.add_zero]
  congr 1
  apply List.map_congr_left
  intro k _
  simp only [Function.comp_apply, Nat.succ_eq_add_one]
  congr 1
  ring

lemma map_range_concat_rev {α : Type} (rd : Nat → α) (a esize n : Nat) :
    ((List.range (n + 1)).map (fun k => rd (a + k * esize))).reverse
      = rd (a + n * esize) :: ((List.range n).map (fun k => rd (a + k * esize))).reverse := by
  rw [List.range_succ]
  simp

lemma consumeFwd_run {α : Type} {esize : Nat} (hesz : 0 < esize) :
    ∀ (n fuel a : Nat) (rd : Nat → α), n ≤ fuel →
      consumeFwd esize rd fuel ⟨a, a + n * esize⟩
        = (List.range n).map (fun k => rd (a + k * esize)) := by
  intro n
  induction n with
  | zero =>
    intro fuel a rd _
    simpa using consumeFwd_done esize rd fuel a
  | succ n ih =>
    intro fuel a rd hfuel
    cases fuel with
    | zero => exact absurd hfuel (by omega)
    | succ f =>
      have hne : a ≠ a + (n + 1) * esize :=
        Nat.ne_of_lt (Nat.lt_add_of_pos_right (Nat.mul_pos (Nat.succ_pos n) hesz))
      have harith : a + (n + 1) * esize = a + esize + n * esize := by ring
      simp only [consumeFwd, RawValIter.next, if_neg hne,
        if_neg (Nat.pos_iff_ne_zero.mp hesz)]
      rw [harith, ih f (a + esize) rd (by omega), map_range_shift]

lemma consumeBack_run {α : Type} {esize : Nat} (hesz : 0 < esize) :
    ∀ (n fuel a : Nat) (rd : Nat → α), n ≤ fuel →
      consumeBack esize rd fuel ⟨a, a + n * esize⟩
        = ((List.range n).map (fun k => rd (a + k * esize))).reverse := by
  intro n
  induction n with
  | zero =>
    intro fuel a rd _
    simpa using consumeBack_done esize rd fuel a
  | succ n ih =>
    intro fuel a rd hfuel
    cases fuel with
    | zero => exact absurd hfuel (by omega)
    | succ f =>
      have hne : a ≠ a + (n + 1) * esize :=
        Nat.ne_of_lt (Nat.lt_add_of_pos_right (Nat.mul_pos (Nat.succ_pos n) hesz))
      have hsub : a + (n + 1) * esize - esize = a + n * esize := by
        have h : a + (n + 1) * esize = a + n * esize + esize := by ring
        rw [h, Nat.add_sub_cancel]
      simp only [consumeBack, RawValIter.next_back, if_neg hne, hsub]
      rw [ih f a rd (by omega), map_range_concat_rev]

lemma consumeFwd_zst_len {α : Type} :
    ∀ (n fuel a : Nat) (rd : Nat → α), n ≤ fuel →
      (consumeFwd 0 rd fuel ⟨a, a + n⟩).length = n := by
  intro n
  induction n with
  | zero =>
    intro fuel a rd _
    simpa using congrArg List.length (consumeFwd_done 0 rd fuel a)
  | succ n ih =>
    intro fuel a rd hfuel
    cases fuel with
    | zero => exact absurd hfuel (by omega)
    | succ f =>
      have hne : a ≠ a + (n + 1) := by omega
      simp only [consumeFwd, RawValIter.next, if_neg hne, if_pos rfl, if_true,
        List.length_cons]
      rw [show a + (n + 1) = a + 1 + n from by omega, ih f (a + 1) rd (by omega)]

lemma RawValIter.new_run {esize : Nat} (hesz : 0 < esize) (ptr len : Nat) :
    RawValIter.new esize ptr len = ⟨ptr, ptr + len * esize⟩ := by
  unfold RawValIter.new
  rw [if_neg (Nat.pos_iff_ne_zero.mp hesz)]
  by_cases h0 : len = 0
  · simp [h0]
  · rw [if_neg h0]

lemma RawValIter.new_zst (ptr len : Nat) :
    RawValIter.new 0 ptr len = ⟨ptr, ptr + len⟩ := by
  unfold RawValIter.new
  simp

lemma NomVec.readAddr_slot {α : Type} {esize : Nat} (hesz : 0 < esize)
    (s : NomVec α) (k : Nat) :
    s.readAddr esize (s.buf.ptr + k * esize) = s.mem k := by
  unfold NomVec.readAddr
  rw [Nat.add_sub_cancel_left, Nat.mul_div_cancel _ hesz]

/-- C6 counterexample: on a vector of one zero-sized element, `drain` does
set the length to 0, but consuming the drain iterator from the back yields
the single live element twice within two steps — `end.offset(-1)` moves by
0 bytes for a zero-sized type, so the iterator never terminates from the
back and elements are not yielded exactly once. -/
theorem claim6_drain_cex :
    (NomVec.drain 0 vZ1).2.len = 0 ∧
    (NomVec.drain 0 vZ1).1 = ⟨1, 2⟩ ∧
    consumeBack 0 (fun _ => ()) 2 (NomVec.drain 0 vZ1).1 = [(), ()] :=
  ⟨rfl, rfl, rfl⟩

/-- C6 as amended: `drain` sets the length to 0 before any element is
yielded; fully consuming the iterator forward yields exactly the
originally-live elements in order for non-zero-sized element types, and
exactly `len` items for every element type; consuming from the back yields
them in reverse order for non-zero-sized element types (for zero-sized
types `next_back` fails to retreat the boundary — see the
counterexample). -/
theorem claim6_drain_amended {α : Type} (esize : Nat) (s : NomVec α) (fuel : Nat)
    (hfuel : s.len ≤ fuel) :
    (NomVec.drain esize s).2.len = 0 ∧
    (0 < esize →
      consumeFwd esize (s.readAddr esize) fuel (NomVec.drain esize s).1 = s.asSlice) ∧
    (0 < esize →
      consumeBack esize (s.readAddr esize) fuel (NomVec.drain esize s).1
        = s.asSlice.reverse) ∧
    (consumeFwd esize (s.readAddr esize) fuel (NomVec.drain esize s).1).length
      = s.len := by
  have hit : 0 < esize →
      (NomVec.drain esize s).1 = ⟨s.buf.ptr, s.buf.ptr + s.len * esize⟩ :=
    fun hesz => RawValIter.new_run hesz _ _
  have hslice : 0 < esize →
      (List.range s.len).map (fun k => s.readAddr esize (s.buf.ptr + k * esize))
        = s.asSlice := by
    intro hesz
    unfold NomVec.asSlice
    apply List.map_congr_left
    intro k _
    exact NomVec.readAddr_slot hesz s k
  refine ⟨rfl, ?_, ?_, ?_⟩
  · intro hesz
    rw [hit hesz, consumeFwd_run hesz s.len fuel s.buf.ptr _ hfuel]
    exact hslice hesz
  · intro hesz
    rw [hit hesz, consumeBack_run hesz s.len fuel s.buf.ptr _ hfuel]
    exact congrArg List.reverse (hslice hesz)
  · by_cases hesz : 0 < esize
    · rw [hit hesz, consumeFwd_run hesz s.len fuel s.buf.ptr _ hfuel]
      simp
    · have h0 : esize = 0 := by omega
      subst h0
      rw [show (NomVec.drain 0 s).1 = ⟨s.buf.ptr, s.buf.ptr + s.len⟩ from
        RawValIter.new_zst _ _]
      exact consumeFwd_zst_len s.len fuel s.buf.ptr _ hfuel

/-- Witness for the amended C6: draining `demo3` leaves length 0, forward
consumption yields its slice view, and backward consumption yields the
reverse. -/
theorem claim6_drain_amended_witness :
    (NomVec.drain 1 demo3).2.len = 0 ∧
    consumeFwd 1 (demo3.readAddr 1) 3 (NomVec.drain 1 demo3).1 = demo3.asSlice ∧
    consumeBack 1 (demo3.readAddr 1) 3 (NomVec.drain 1 demo3).1
      = demo3.asSlice.reverse ∧
    (consumeFwd 1 (demo3.readAddr 1) 3 (NomVec.drain 1 demo3).1).length
      = demo3.len := by
  have h := claim6_drain_amended 1 demo3 3 (by decide)
  exact ⟨h.1, h.2.1 (by decide), h.2.2.1 (by decide), h.2.2.2⟩

/-- C8 (code bug): for a zero-sized element type, a forward step works
(the opaque counter advances, here from start 1 to 2 over a 1-element
run), but a backward step computes `end.offset(-1)`, which moves the
address by 0 bytes: the iterator state is returned unchanged, so
`next_back` yields the single live element again and again (two yields in
two steps from one element) and the `start == end` termination condition
is never reached from the back. -/
theorem claim8_zst_next_back :
    RawValIter.next 0 (fun _ => ()) ⟨1, 2⟩ = some ((), ⟨2, 2⟩) ∧
    RawValIter.next_back 0 (fun _ => ()) ⟨1, 2⟩ = some ((), ⟨1, 2⟩) ∧
    consumeBack 0 (fun _ => ()) 2 ⟨1, 2⟩ = [(), ()] :=
  ⟨rfl, rfl, rfl⟩

/-- C9 (code bug): `size_hint` divides the boundary distance by
`mem::size_of::<T>()` unconditionally, so for a zero-sized element type it
divides by zero and panics (modelled as `none`) instead of reporting the
exact remaining count; for non-zero-sized element types the count is exact
(3 remaining before, 3 yielded; 2 reported after one step). -/
theorem claim9_size_hint_zst :
    RawValIter.size_hint 0 ⟨1, 2⟩ = none ∧
    RawValIter.size_hint 1 ⟨5, 8⟩ = some 3 ∧
    (consumeFwd 1 (fun a => a) 3 ⟨5, 8⟩).length = 3 ∧
    RawValIter.size_hint 1 ⟨6, 8⟩ = some 2 :=
  ⟨rfl, rfl, rfl, rfl⟩

end NomVecModel
